import Mathlib

/-!
Verification of the ImproNeuf CastleRooms booking pipeline.

This file gives a shallow embedding, in Lean, of the core data pipeline of
the repository: the event normalizer, the paginated fetch engine, the
endpoint rate guard, the contact resolver and cache, the booker filter, the
month overlap filter and the calendar grid builder, together with theorems
settling the specification claims about them.

Modelling conventions:
- A JavaScript date value is an `Option Int`: `some t` is a valid `Date`
  whose instant is `t` milliseconds since the epoch, `none` is an
  `Invalid Date` (a `NaN` time value).  Comparisons against `none` are
  `false`, exactly as JS comparisons involving `NaN`.
- `new Date(string)` is an environment-supplied function
  `parse : String → Option Int`, and `new Date()` is an environment-supplied
  instant `now : Int`; theorems quantify over both.
- Raw record fields of type `unknown` that the code only tests for
  truthiness and stringifies are modelled by `JSVal`
  (`undefined` / `null` / a string), which covers the shapes the upstream
  API delivers for those fields.
- The local-time day line is uniform: day `d` covers the instants
  `[d * 86400000, (d + 1) * 86400000)` (no daylight-saving irregularity).
-/

/-- A JavaScript value as it appears in the loosely typed fields of a raw
record (`starttime`, `id`, `description`, ...): `undefined`, `null`, or a
string. -/
inductive JSVal where
  | undef
  | null
  | str (s : String)
deriving DecidableEq, Repr

/-- JS truthiness for a `JSVal`: only a non-empty string is truthy. -/
def JSVal.truthy : JSVal → Bool
  | .str s => s ≠ ""
  | _ => false

/-- `String(v)` for a `JSVal`. -/
def JSVal.toStr : JSVal → String
  | .undef => "undefined"
  | .null => "null"
  | .str s => s

/-- `a || b` on JS values: `a` if truthy, else `b`. -/
def jsOr (a b : JSVal) : JSVal := if a.truthy then a else b

/-- `String(v || '')`: the stringification the service applies to `id` and
`name` fields. -/
def jsStrOrEmpty (v : JSVal) : String := if v.truthy then v.toStr else ""

/-- `String.prototype.trim`: strip whitespace from both ends (embedded as a
character-list operation so that it evaluates by `decide`). -/
def jsTrim (s : String) : String :=
  ⟨((s.data.dropWhile Char.isWhitespace).reverse.dropWhile Char.isWhitespace).reverse⟩

/-- Lookup in an association list, modelling `Map.get` / bracket access on a
JS record. -/
def mapLookup {α : Type} : List (String × α) → String → Option α
  | [], _ => none
  | (k, v) :: rest, key => if k = key then some v else mapLookup rest key

/-- Update of an association list, modelling `Map.set(k, v)`. -/
def mapSet {α : Type} : List (String × α) → String → α → List (String × α)
  | [], key, v => [(key, v)]
  | (k, w) :: rest, key, v =>
    if k = key then (k, v) :: rest else (k, w) :: mapSet rest key v

/-- The `status` field of a raw event: the API returns either a plain value
or an object carrying a `name` property. -/
inductive StatusVal where
  | undef
  | null
  | str (s : String)
  | objWithName (n : String)
  | objOther
deriving DecidableEq, Repr

/-- The `owner` field of a raw event: absent, a plain string, an object with
a `name` property, or some other object. -/
inductive OwnerVal where
  | undef
  | str (s : String)
  | objWithName (n : String)
  | objOther
deriving DecidableEq, Repr

/-- JS truthiness of the `owner` field (objects are truthy, the empty string
is not). -/
def OwnerVal.truthy : OwnerVal → Bool
  | .undef => false
  | .str s => s ≠ ""
  | _ => true

/-- A raw event record as delivered by the upstream API, restricted to the
fields the pipeline reads.  `end_` embeds the raw field `end` (a reserved
word in Lean). -/
structure RawEvent where
  id : JSVal
  name : JSVal
  starttime : JSVal
  start : JSVal
  defaultschedulestart : JSVal
  endtime : JSVal
  end_ : JSVal
  defaultscheduleend : JSVal
  status : StatusVal
  description : JSVal
  owner : OwnerVal
deriving DecidableEq, Repr

/-- The canonical `YesPlanEvent` produced by the normalizer.  `start` and
`end_` are JS `Date` values (`none` = Invalid Date); `owner` is passed
through from the raw record by the object spread. -/
structure YesPlanEvent where
  id : String
  name : String
  start : Option Int
  end_ : Option Int
  status : String
  description : Option String
  owner : OwnerVal
deriving DecidableEq, Repr

/-- `raw_event.starttime || raw_event.start || raw_event.defaultschedulestart`:
the resolved start candidate (first truthy wins, else the last candidate). -/
def resolvedStart (raw : RawEvent) : JSVal :=
  jsOr raw.starttime (jsOr raw.start raw.defaultschedulestart)

/-- `raw_event.endtime || raw_event.end || raw_event.defaultscheduleend`. -/
def resolvedEnd (raw : RawEvent) : JSVal :=
  jsOr raw.endtime (jsOr raw.end_ raw.defaultscheduleend)

/-- Status resolution: the `name` property when the status is an object
exposing one, else the stringified value, else the empty string. -/
def statusResolve : StatusVal → String
  | .undef => ""
  | .null => ""
  | .str s => if s = "" then "" else s
  | .objWithName n => n
  | .objOther => "[object Object]"

/-- The date-parsing block of `normalizeEvent`: if the resolved candidate is
truthy and not whitespace-only, parse it and replace an invalid result with
`now`; otherwise use `now`. -/
def resolveDateField (v : JSVal) (parse : String → Option Int) (now : Int) : Option Int :=
  if v.truthy ∧ jsTrim v.toStr ≠ "" then
    match parse v.toStr with
    | none => some now
    | some t => some t
  else some now

/-- The final defensive validation of `normalizeEvent`: replace an invalid
date with `new Date()`. -/
def fixInvalid (d : Option Int) (now : Int) : Option Int :=
  match d with
  | none => some now
  | some t => some t

/-- `YesPlanApiService.normalizeEvent`: map a heterogeneous raw record to a
canonical event.  `parse` embeds `new Date(string)` and `now` embeds
`new Date()`. -/
def normalizeEvent (raw : RawEvent) (parse : String → Option Int) (now : Int) : YesPlanEvent :=
  let start_time := resolvedStart raw
  let end_time := resolvedEnd raw
  let status_value := statusResolve raw.status
  let start_date := resolveDateField start_time parse now
  let end_date := resolveDateField end_time parse now
  { id := jsStrOrEmpty raw.id
    name := jsStrOrEmpty raw.name
    start := fixInvalid start_date now
    end_ := fixInvalid end_date now
    status := status_value
    description := if raw.description.truthy then some raw.description.toStr else none
    owner := raw.owner }

/-! ### Endpoint rate guard (`extractEndpointPath`, `checkRateLimit`) -/

/-- `endpoint.split('?')[0]`: the characters before the first `?`. -/
def takeBeforeQuery (l : List Char) : List Char := l.takeWhile (fun c => c ≠ '?')

/-- `path.replace(/\/+$/, '')`: strip trailing slashes. -/
def dropTrailingSlashes (l : List Char) : List Char :=
  (l.reverse.dropWhile (fun c => c = '/')).reverse

/-- `s.split('/')` on a character list. -/
def splitOnSlash : List Char → List (List Char)
  | [] => [[]]
  | c :: rest =>
    match splitOnSlash rest with
    | [] => [[]]
    | h :: t => if c = '/' then [] :: h :: t else (c :: h) :: t

/-- The known endpoint keywords that are never collapsed to a placeholder. -/
def endpoint_keywords : List String :=
  ["events", "event", "resources", "resource", "contacts", "contact", "locations", "location"]

/-- The singular resource names after which a segment is treated as an id. -/
def singular_resources : List String := ["event", "contact", "resource", "location"]

/-- The per-segment normalization loop: a segment that follows a singular
resource name and is not itself a keyword becomes the placeholder.  The
`prev` argument is the previous original (not normalized) segment. -/
def normSegs (prev : Option String) : List String → List String
  | [] => []
  | s :: rest =>
    let is_after_singular := match prev with
      | some p => singular_resources.contains p
      | none => false
    let s' := if is_after_singular && ! endpoint_keywords.contains s then "\x7bid\x7d" else s
    s' :: normSegs (some s) rest

/-- `YesPlanApiService.extractEndpointPath`: query string stripped, slashes
normalized, id-like segments collapsed to a placeholder. -/
def extractEndpointPath (endpoint : String) : String :=
  let path := takeBeforeQuery endpoint.data
  let stripped := dropTrailingSlashes path
  let normalized := if stripped = [] then ['/'] else stripped
  let normalized := if normalized.head? = some '/' then normalized else '/' :: normalized
  let segments := ((splitOnSlash normalized).filter (fun cs => cs ≠ [])).map
    (fun cs => (⟨cs⟩ : String))
  "/" ++ String.intercalate "/" (normSegs none segments)

/-- The guard threshold (`RATE_LIMIT = 5`). -/
def RATE_LIMIT : Nat := 5

/-- The mutable state of the guard: `last_endpoint` and
`consecutive_call_count`. -/
structure RateState where
  last : Option String
  count : Nat
deriving DecidableEq, Repr

/-- One invocation of `checkRateLimit`: returns the updated state and
whether the call throws the rate-limit error. -/
def rateStep (st : RateState) (endpoint : String) : RateState × Bool :=
  let p := extractEndpointPath endpoint
  if st.last = some p then
    let c := st.count + 1
    (⟨some p, c⟩, decide (c > RATE_LIMIT))
  else
    (⟨some p, 1⟩, false)

/-- The guard state after a sequence of calls, starting from the fresh
service state (`last_endpoint = null`, count `0`). -/
def rateRun (calls : List String) : RateState :=
  calls.foldl (fun st e => (rateStep st e).1) ⟨none, 0⟩

/-- Whether the call to `e`, made after the trace `calls`, throws the
rate-limit error. -/
def tripsOn (calls : List String) (e : String) : Bool :=
  (rateStep (rateRun calls) e).2

/-- Length of the constant run at the head of a list. -/
def leadRun : List String → Nat
  | [] => 0
  | a :: rest => 1 + (rest.takeWhile (fun b => b = a)).length

/-- Length of the constant run at the end of a list: how many times the last
element repeats consecutively at the end. -/
def constSuffixLen (l : List String) : Nat := leadRun l.reverse

/-! ### Paginated fetch engine (`fetchEvents`) -/

/-- The pagination block of a page response.  `none` models an absent (or,
for `next`, falsy) field: the code tests `pagination.next` for truthiness
and `pagination.hasMore`/`pagination.book` against `undefined`. -/
structure PaginationInfo where
  book : Option Int
  page : Option Int
  hasMore : Option Bool
  next : Option String
deriving DecidableEq, Repr

/-- One page response: `{ data, pagination? }`. -/
structure PageResponse where
  data : List RawEvent
  pagination : Option PaginationInfo

/-- The continuation decision of the page loop, as a function of the page
response alone: a `next` locator continues; else an explicit `hasMore` flag
decides; else the loop stops. -/
def contDecision (r : PageResponse) : Bool :=
  match r.pagination with
  | none => false
  | some p =>
    match p.next with
    | some _ => true
    | none =>
      match p.hasMore with
      | some b => b
      | none => false

/-- The page loop of `fetchEvents`.  `responses k` is the response to the
`k`-th network request issued; `parseNext` embeds
`new URL(next).searchParams` extraction (`none` when the URL constructor
throws); the fuel is `max_pages - pages_fetched` and mirrors the loop guard
`pages_fetched < max_pages`.

Every iteration goes through `this.request(endpoint, params)`, which first
invokes `checkRateLimit(endpoint)`; the `endpoint` string is built once
before the loop and `book`/`page` travel as query parameters, which the
guard strips, so the guard sees the same normalized shape on every
iteration.  When the guard trips, `checkRateLimit` throws (after having
incremented its counter) before any network request is made, and the error
propagates out of the loop: the result is `Except.error ()` and the
accumulated events are lost.

Returns the outcome (thrown or the accumulated events), the number of
network requests issued, and the guard state after the call. -/
def fetchGo (responses : Nat → PageResponse)
    (parseNext : String → Option (Option Int × Option Int))
    (parse : String → Option Int) (now : Int) (endpoint : String) :
    Nat → Nat → RateState → Option Int → Int → List YesPlanEvent →
    Except Unit (List YesPlanEvent) × Nat × RateState
  | 0, k, st, _, _, acc => (.ok acc, k, st)
  | fuel + 1, k, st, book, page, acc =>
    let step := rateStep st endpoint
    if step.2 then (.error (), k, step.1)
    else
      let r := responses k
      let events := r.data.map (fun e => normalizeEvent e parse now)
      let acc2 := acc ++ events
      match r.pagination with
      | none => (.ok acc2, k + 1, step.1)
      | some p =>
        match p.next with
        | some nxt =>
          let bp : Option Int × Int :=
            match parseNext nxt with
            | some (nb, np) =>
              ((match nb with | some b => some b | none => book),
               (match np with | some q => q | none => page))
            | none => (book, page + 1)
          fetchGo responses parseNext parse now endpoint fuel (k + 1) step.1 bp.1 bp.2 acc2
        | none =>
          match p.hasMore with
          | some hm =>
            let book2 := match p.book with | some b => some b | none => book
            if hm then
              fetchGo responses parseNext parse now endpoint fuel (k + 1) step.1 book2
                (page + 1) acc2
            else (.ok acc2, k + 1, step.1)
          | none => (.ok acc2, k + 1, step.1)

/-- `YesPlanApiService.fetchEvents` with page cap `maxPages`, starting with
no book locator and page `1`.  `endpoint` is the value of
`buildEventsEndpoint(start_date, end_date)`, constant across the loop, and
`st0` is the service's rate-guard state when the call starts (a freshly
constructed service has `⟨none, 0⟩`). -/
def fetchEvents (responses : Nat → PageResponse)
    (parseNext : String → Option (Option Int × Option Int))
    (parse : String → Option Int) (now : Int) (endpoint : String)
    (st0 : RateState) (maxPages : Nat) :
    Except Unit (List YesPlanEvent) × Nat × RateState :=
  fetchGo responses parseNext parse now endpoint maxPages 0 st0 none 1 []

/-- The normalized contents of the `k`-th page. -/
def pageEvents (responses : Nat → PageResponse) (parse : String → Option Int)
    (now : Int) (k : Nat) : List YesPlanEvent :=
  (responses k).data.map (fun e => normalizeEvent e parse now)

/-- The concatenated normalized contents of pages `k, k+1, ..., k+m-1`. -/
def joinPages (responses : Nat → PageResponse) (parse : String → Option Int)
    (now : Int) (k m : Nat) : List YesPlanEvent :=
  ((List.range m).map (fun i => pageEvents responses parse now (k + i))).flatten

/-! ### Contact resolver and cache (`findContactByName`) -/

/-- A raw contact candidate returned by the search endpoint (fields are
`unknown` in the source). -/
structure RawContact where
  id : JSVal
  name : JSVal
deriving DecidableEq, Repr

/-- The outcome of the search request issued on a cache miss: a data list,
an upstream not-found error (message contains `does not exist`), or another
error. -/
inductive SearchOutcome where
  | ok (contacts : List RawContact)
  | notFound
  | err
deriving DecidableEq, Repr

/-- The observable outcome of one `findContactByName` call: the returned
value (`Except.error` means the error is re-thrown), the contact cache after
the call, and the number of network requests issued. -/
structure LookupResult where
  result : Except Unit (Option String)
  cache : List (String × String)
  requests : Nat
deriving Repr

/-- `YesPlanApiService.findContactByName`: cache first, then one search
request, then an exact match on the candidate name.  `lookup` embeds the
network: the response to the search request for a given name. -/
def findContactByName (cache : List (String × String))
    (lookup : String → SearchOutcome) (name : String) : LookupResult :=
  match mapLookup cache name with
  | some cached =>
    -- cache hit: `this.contact_cache.get(name) || null`
    { result := .ok (if cached = "" then none else some cached)
      cache := cache, requests := 0 }
  | none =>
    match lookup name with
    | .ok contacts =>
      match contacts.find? (fun c => decide (c.name = JSVal.str name)) with
      | some c =>
        let contact_id := jsStrOrEmpty c.id
        { result := .ok (some contact_id)
          cache := mapSet cache name contact_id, requests := 1 }
      | none => { result := .ok none, cache := cache, requests := 1 }
    | .notFound => { result := .ok none, cache := cache, requests := 1 }
    | .err => { result := .error (), cache := cache, requests := 1 }

/-! ### Booker filter (`filter_events_by_booker` and its caller) -/

/-- A normalized contact as stored in the event-to-contacts map. -/
structure YesPlanContact where
  id : String
  name : String
deriving DecidableEq, Repr

/-- The fixed relevant-bookers allow-list. -/
def relevant_bookers : List String := ["Impro Neuf", "Oslo Impro Festival"]

/-- The owner-name extraction of `filter_events_by_booker`: the `name`
property when the truthy owner is an object exposing one, the owner itself
when it is a string, nothing otherwise. -/
def ownerName (o : OwnerVal) : Option String :=
  if o.truthy then
    match o with
    | .objWithName n => some n
    | .str s => some s
    | _ => none
  else none

/-- The candidate name list of an event: contact names mapped to its id,
plus the owner name when present and truthy. -/
def candidateNames (e : YesPlanEvent) (cmap : List (String × List YesPlanContact)) : List String :=
  let contact_names := ((mapLookup cmap e.id).getD []).map (fun c => c.name)
  match ownerName e.owner with
  | some n => if n ≠ "" then contact_names ++ [n] else contact_names
  | none => contact_names

/-- `filter_events_by_booker` from `filterUtils.ts`. -/
def filter_events_by_booker (events : List YesPlanEvent) (selected_booker : String)
    (event_contacts_map : List (String × List YesPlanContact)) : List YesPlanEvent :=
  if selected_booker = "" then []
  else
    events.filter (fun e =>
      let all_names := candidateNames e event_contacts_map
      if selected_booker = "Other" then
        ! all_names.any (fun n => relevant_bookers.contains n)
      else all_names.contains selected_booker)

/-- The `filtered_events` computed property of `App.vue`: empty when no
booker is selected, otherwise `filter_events_by_booker` applied to the
current events and contacts map. -/
def filtered_events (events : List YesPlanEvent) (selected_booker : String)
    (event_contacts_map : List (String × List YesPlanContact)) : List YesPlanEvent :=
  if selected_booker = "" then []
  else filter_events_by_booker events selected_booker event_contacts_map

/-! ### Calendar: month boundaries, month overlap filter, grid builder -/

/-- Milliseconds per local day. -/
def msPerDay : Int := 86400000

/-- The local day index of an instant (floor division), so that two instants
satisfy `isSameDay` exactly when their day indices agree. -/
def dayOf (t : Int) : Int := Int.fdiv t msPerDay

/-- The midnight instant of a day index: the `Date` value of that calendar
day in the grid. -/
def dayStartInstant (d : Int) : Int := d * msPerDay

/-- Gregorian leap year. -/
def isLeapYear (y : Int) : Bool := y % 4 = 0 && (y % 100 ≠ 0 || y % 400 = 0)

/-- Number of days of month `m` (1..12) of year `y`. -/
def daysInMonth (y m : Int) : Int :=
  if m = 2 then (if isLeapYear y then 29 else 28)
  else if m = 4 ∨ m = 6 ∨ m = 9 ∨ m = 11 then 30
  else 31

/-- Day index (days since 1970-01-01) of the civil date `y-m-d`, by the
standard proleptic-Gregorian conversion. -/
def daysFromCivil (y m d : Int) : Int :=
  let ys := if m ≤ 2 then y - 1 else y
  let era := Int.fdiv ys 400
  let yoe := ys - era * 400
  let mp := (m + 9) % 12
  let doy := Int.fdiv (153 * mp + 2) 5 + d - 1
  let doe := yoe * 365 + Int.fdiv yoe 4 - Int.fdiv yoe 100 + doy
  era * 146097 + doe - 719468

/-- Day of week of a day index, JS convention (`0` = Sunday); day `0`
(1970-01-01) was a Thursday. -/
def dayOfWeek (d : Int) : Int := (d + 4) % 7

/-- `startOfWeek(date, weekStartsOn: 1)`: the Monday on or before `d`. -/
def mondayOnOrBefore (d : Int) : Int := d - (dayOfWeek d + 6) % 7

/-- `endOfWeek(date, weekStartsOn: 1)`: the Sunday on or after `d`. -/
def sundayOnOrAfter (d : Int) : Int := d + (7 - dayOfWeek d) % 7

/-- Day index of the first day of month `(y, m)` (`startOfMonth`). -/
def monthStartDay (y m : Int) : Int := daysFromCivil y m 1

/-- Day index of the last day of month `(y, m)` (`endOfMonth`). -/
def monthEndDay (y m : Int) : Int := daysFromCivil y m (daysInMonth y m)

/-- First instant of the month: `new Date(year, month, 1)`. -/
def monthStartInstant (y m : Int) : Int := dayStartInstant (monthStartDay y m)

/-- Last instant of the month:
`new Date(year, month + 1, 0, 23, 59, 59, 999)`. -/
def monthEndInstant (y m : Int) : Int := dayStartInstant (monthEndDay y m) + 86399999

/-- A JS `<=` comparison between possibly invalid date values: `false`
whenever either side is `NaN`. -/
def leOpt : Option Int → Option Int → Bool
  | some a, some b => decide (a ≤ b)
  | _, _ => false

/-- `YesPlanApiService.filterEventsForMonth`: keep events whose interval
overlaps the month containing the reference date (here the reference is the
civil month `(y, m)`).  Each comparison is `false` on an invalid date, as in
JS. -/
def filterEventsForMonth (events : List YesPlanEvent) (y m : Int) : List YesPlanEvent :=
  let month_start := monthStartInstant y m
  let month_end := monthEndInstant y m
  events.filter (fun e =>
    (leOpt (some month_start) e.start && leOpt e.start (some month_end)) ||
    (leOpt (some month_start) e.end_ && leOpt e.end_ (some month_end)) ||
    (leOpt e.start (some month_start) && leOpt (some month_end) e.end_))

/-- The `filtered_by_month` computed property of `Calendar.vue`: same
overlap rule, but events with an invalid start or end are dropped by an
explicit validity guard first. -/
def filtered_by_month (events : List YesPlanEvent) (y m : Int) : List YesPlanEvent :=
  let month_start := monthStartInstant y m
  let month_end := monthEndInstant y m
  events.filter (fun e =>
    match e.start, e.end_ with
    | some s, some en =>
      (decide (month_start ≤ s) && decide (s ≤ month_end)) ||
      (decide (month_start ≤ en) && decide (en ≤ month_end)) ||
      (decide (s ≤ month_start) && decide (month_end ≤ en))
    | _, _ => false)

/-- The per-day assignment predicate of `calendar_days`: the event starts on
the day, ends on the day, or spans across the midnight instant of the day.
Events with an invalid date are dropped by the validity guard. -/
def eventOnDay (e : YesPlanEvent) (d : Int) : Bool :=
  match e.start, e.end_ with
  | some s, some en =>
    decide (dayOf s = d) || decide (dayOf en = d) ||
    (decide (s ≤ dayStartInstant d) && decide (dayStartInstant d ≤ en))
  | _, _ => false

/-- First day of the grid: start of the week containing the first of the
month. -/
def gridStartDay (y m : Int) : Int := mondayOnOrBefore (monthStartDay y m)

/-- Last day of the grid: end of the week containing the last of the
month. -/
def gridEndDay (y m : Int) : Int := sundayOnOrAfter (monthEndDay y m)

/-- The list of `n` consecutive day indices starting at `start`. -/
def dayRange (start : Int) : Nat → List Int
  | 0 => []
  | n + 1 => start :: dayRange (start + 1) n

/-- `eachDayOfInterval`: the consecutive day indices of the grid. -/
def gridDays (y m : Int) : List Int :=
  dayRange (gridStartDay y m) (gridEndDay y m - gridStartDay y m + 1).toNat

/-- A day cell of the grid: its day index and the events assigned to it
(`day_number`, `is_today` and `is_other_month` are presentational and not
modelled). -/
structure CalendarDayCell where
  day : Int
  events : List YesPlanEvent
deriving DecidableEq, Repr

/-- The `calendar_days` computed property of `Calendar.vue`: one cell per
grid day, carrying every month-filtered event assigned to that day. -/
def calendar_days (events : List YesPlanEvent) (y m : Int) : List CalendarDayCell :=
  (gridDays y m).map (fun d =>
    ⟨d, (filtered_by_month events y m).filter (fun e => eventOnDay e d)⟩)

/-! ## Claim theorems -/

/-! ### C1: the normalizer is total and always yields valid instants -/

/-- C1.  `normalizeEvent` is total (it is a Lean function, so it never
raises) and its result always has valid, non-NaN start and end instants
(`isSome`); whenever the resolved source value for start (resp. end) is
absent/falsy, whitespace-only, or parses to an invalid instant, the result
instant is the current wall-clock instant `now`.  Validity holds
unconditionally, which is exactly the re-checked, re-defaulted
post-condition a caller may assert. -/
theorem normalizeEvent_total_and_valid (raw : RawEvent) (parse : String → Option Int) (now : Int) :
    ((normalizeEvent raw parse now).start.isSome = true ∧
      (normalizeEvent raw parse now).end_.isSome = true) ∧
    ((resolvedStart raw).truthy = false ∨ jsTrim (resolvedStart raw).toStr = "" ∨
        parse (resolvedStart raw).toStr = none →
      (normalizeEvent raw parse now).start = some now) ∧
    ((resolvedEnd raw).truthy = false ∨ jsTrim (resolvedEnd raw).toStr = "" ∨
        parse (resolvedEnd raw).toStr = none →
      (normalizeEvent raw parse now).end_ = some now) := by
  refine ⟨⟨?_, ?_⟩, ?_, ?_⟩
  · simp only [normalizeEvent, resolveDateField]
    split
    · rcases parse (resolvedStart raw).toStr with _ | t <;> simp [fixInvalid]
    · simp [fixInvalid]
  · simp only [normalizeEvent, resolveDateField]
    split
    · rcases parse (resolvedEnd raw).toStr with _ | t <;> simp [fixInvalid]
    · simp [fixInvalid]
  · intro h
    simp only [normalizeEvent, resolveDateField]
    split
    · rename_i hc
      rcases h with h | h | h
      · exact absurd hc.1 (by simp [h])
      · exact absurd h hc.2
      · simp [h, fixInvalid]
    · simp [fixInvalid]
  · intro h
    simp only [normalizeEvent, resolveDateField]
    split
    · rename_i hc
      rcases h with h | h | h
      · exact absurd hc.1 (by simp [h])
      · exact absurd h hc.2
      · simp [h, fixInvalid]
    · simp [fixInvalid]

/-- A raw record with every field absent. -/
def rawEmpty : RawEvent :=
  ⟨.undef, .undef, .undef, .undef, .undef, .undef, .undef, .undef, .undef, .undef, .undef⟩

/-- A `new Date(string)` environment in which no string parses. -/
def parseNone : String → Option Int := fun _ => none

/-- Witness for C1: on a record with every date field missing, both
instants fall back to `now`. -/
theorem normalizeEvent_total_and_valid_witness :
    (normalizeEvent rawEmpty parseNone 0).start = some 0 ∧
      (normalizeEvent rawEmpty parseNone 0).end_ = some 0 :=
  ⟨(normalizeEvent_total_and_valid rawEmpty parseNone 0).2.1 (Or.inl (by decide)),
   (normalizeEvent_total_and_valid rawEmpty parseNone 0).2.2 (Or.inl (by decide))⟩

/-! ### C2: field resolution priority -/

/-- A raw record whose `starttime` is whitespace-only while
`defaultschedulestart` holds a parsable date. -/
def rawWhitespaceStart : RawEvent :=
  { rawEmpty with starttime := .str " ", defaultschedulestart := .str "2024-01-01T10:00:00" }

/-- A `new Date(string)` environment in which exactly the populated
candidate parses (to instant `123`). -/
def parseOnlyDefault : String → Option Int :=
  fun s => if s = "2024-01-01T10:00:00" then some 123 else none

/-- Counterexample to C2 as stated: a whitespace-only `starttime` is NOT
skipped in favor of `defaultschedulestart`.  It is truthy, so it wins the
`||` resolution, and the subsequent trim check then falls back to `now`
(here `999`) — the result is never the parsed `defaultschedulestart`
instant `123`. -/
theorem normalizeEvent_whitespace_not_skipped :
    (normalizeEvent rawWhitespaceStart parseOnlyDefault 999).start = some 999 ∧
      (normalizeEvent rawWhitespaceStart parseOnlyDefault 999).start ≠ some 123 ∧
      parseOnlyDefault rawWhitespaceStart.defaultschedulestart.toStr = some 123 := by
  refine ⟨by decide, by decide, by decide⟩

/-- C2 (amended).  The start field resolves by `starttime || start ||
defaultschedulestart` (and the end field by `endtime || end ||
defaultscheduleend`): a falsy candidate — null, absent, or empty — is
skipped in favor of the next one, and the first truthy candidate wins.
When the winning candidate is non-whitespace and parses, the result is its
parsed instant (in particular, with both `starttime` and
`defaultschedulestart` populated, the result start is the parsed
`starttime`, never `defaultschedulestart`).  A whitespace-only truthy
candidate, however, is selected and then falls back to `now`, not to the
next candidate. -/
theorem normalizeEvent_field_priority (raw : RawEvent) (parse : String → Option Int)
    (now t : Int) :
    (raw.starttime.truthy = false →
      resolvedStart raw = jsOr raw.start raw.defaultschedulestart) ∧
    (raw.starttime.truthy = true → resolvedStart raw = raw.starttime) ∧
    (raw.starttime.truthy = true → jsTrim raw.starttime.toStr ≠ "" →
      parse raw.starttime.toStr = some t →
      (normalizeEvent raw parse now).start = some t) ∧
    (raw.starttime.truthy = true → jsTrim raw.starttime.toStr = "" →
      (normalizeEvent raw parse now).start = some now) ∧
    (raw.endtime.truthy = false →
      resolvedEnd raw = jsOr raw.end_ raw.defaultscheduleend) ∧
    (raw.endtime.truthy = true → resolvedEnd raw = raw.endtime) ∧
    (raw.endtime.truthy = true → jsTrim raw.endtime.toStr ≠ "" →
      parse raw.endtime.toStr = some t →
      (normalizeEvent raw parse now).end_ = some t) ∧
    (raw.endtime.truthy = true → jsTrim raw.endtime.toStr = "" →
      (normalizeEvent raw parse now).end_ = some now) := by
  refine ⟨?_, ?_, ?_, ?_, ?_, ?_, ?_, ?_⟩
  · intro h; simp [resolvedStart, jsOr, h]
  · intro h; simp [resolvedStart, jsOr, h]
  · intro h1 h2 h3
    have hres : resolvedStart raw = raw.starttime := by simp [resolvedStart, jsOr, h1]
    simp [normalizeEvent, resolveDateField, hres, h1, h2, h3, fixInvalid]
  · intro h1 h2
    have hres : resolvedStart raw = raw.starttime := by simp [resolvedStart, jsOr, h1]
    simp [normalizeEvent, resolveDateField, hres, h2, fixInvalid]
  · intro h; simp [resolvedEnd, jsOr, h]
  · intro h; simp [resolvedEnd, jsOr, h]
  · intro h1 h2 h3
    have hres : resolvedEnd raw = raw.endtime := by simp [resolvedEnd, jsOr, h1]
    simp [normalizeEvent, resolveDateField, hres, h1, h2, h3, fixInvalid]
  · intro h1 h2
    have hres : resolvedEnd raw = raw.endtime := by simp [resolvedEnd, jsOr, h1]
    simp [normalizeEvent, resolveDateField, hres, h2, fixInvalid]

/-- A raw record with both `starttime` and `defaultschedulestart`
populated with non-whitespace values. -/
def rawBothStarts : RawEvent :=
  { rawEmpty with
    starttime := .str "2024-02-01T09:00:00"
    defaultschedulestart := .str "2024-01-01T10:00:00" }

/-- A parse environment giving distinct instants to the two candidates. -/
def parseBothStarts : String → Option Int :=
  fun s =>
    if s = "2024-02-01T09:00:00" then some 555
    else if s = "2024-01-01T10:00:00" then some 123
    else none

/-- Witness for C2 (amended): with both `starttime` and
`defaultschedulestart` populated, the result start is the parsed
`starttime` (`555`), not the parsed default (`123`). -/
theorem normalizeEvent_field_priority_witness :
    (normalizeEvent rawBothStarts parseBothStarts 999).start = some 555 :=
  (normalizeEvent_field_priority rawBothStarts parseBothStarts 999 555).2.2.1
    (by decide) (by decide) (by decide)

/-! ### C5: the endpoint rate guard -/

/-- Appending one call folds one `rateStep`. -/
theorem rateRun_append (l : List String) (e : String) :
    rateRun (l ++ [e]) = (rateStep (rateRun l) e).1 := by
  simp [rateRun, List.foldl_append]

/-- The constant-suffix length grows by one exactly when the appended
element repeats the current last element. -/
theorem constSuffixLen_append (l : List String) (a : String) :
    constSuffixLen (l ++ [a]) =
      if l.getLast? = some a then constSuffixLen l + 1 else 1 := by
  have hrev : (l ++ [a]).reverse = a :: l.reverse := by simp
  rcases hr : l.reverse with _ | ⟨b, r⟩
  · have hl : l = [] := by simpa using congrArg List.reverse hr
    subst hl
    simp [constSuffixLen, leadRun]
  · have hlast : l.getLast? = some b := by
      rw [← List.head?_reverse, hr]; rfl
    by_cases hba : b = a
    · subst hba
      simp only [constSuffixLen, hrev, hr, leadRun, hlast, if_pos rfl, List.takeWhile]
      simp
      omega
    · simp [constSuffixLen, hrev, hr, leadRun, hlast, hba, List.takeWhile]

/-- The guard state after a trace: `last_endpoint` is the normalized shape
of the last call, and the counter is the length of the constant run of
normalized shapes at the end of the trace. -/
theorem rateRun_characterization (l : List String) :
    (rateRun l).last = (l.map extractEndpointPath).getLast? ∧
      (rateRun l).count = constSuffixLen (l.map extractEndpointPath) := by
  induction l using List.reverseRecOn with
  | nil => constructor <;> rfl
  | append_singleton l e ih =>
    obtain ⟨ih1, ih2⟩ := ih
    rw [rateRun_append]
    have hmap : (l ++ [e]).map extractEndpointPath =
        l.map extractEndpointPath ++ [extractEndpointPath e] := by simp
    rw [hmap, constSuffixLen_append, List.getLast?_concat]
    simp only [rateStep, ih1, ih2]
    split_ifs with hsame
    · exact ⟨rfl, rfl⟩
    · exact ⟨rfl, rfl⟩

/-- C5.  `checkRateLimit` raises the rate-limit error iff the same
normalized endpoint shape has now been called more than `RATE_LIMIT = 5`
times consecutively with no intervening call to a different shape (the
constant run of normalized shapes at the end of the trace, including the
current call, has length at least 6).  The counter resets to 1 whenever the
normalized shape changes and increments otherwise, and
`/event/123/contacts` and `/event/456/contacts` normalize to the same
endpoint shape. -/
theorem checkRateLimit_spec (calls : List String) (e : String) :
    (tripsOn calls e = true ↔
      6 ≤ constSuffixLen ((calls ++ [e]).map extractEndpointPath)) ∧
    (∀ st : RateState,
      ((rateStep st e).1).count =
        if st.last = some (extractEndpointPath e) then st.count + 1 else 1) ∧
    extractEndpointPath "/event/123/contacts" = extractEndpointPath "/event/456/contacts" ∧
    extractEndpointPath "/event/123/contacts" = "/event/\x7bid\x7d/contacts" := by
  refine ⟨?_, ?_, by decide, by decide⟩
  · obtain ⟨h1, h2⟩ := rateRun_characterization calls
    have hmap : (calls ++ [e]).map extractEndpointPath =
        calls.map extractEndpointPath ++ [extractEndpointPath e] := by simp
    rw [hmap, constSuffixLen_append]
    simp only [tripsOn, rateStep, h1, h2]
    split_ifs with hsame
    · simp [RATE_LIMIT]
      omega
    · simp
  · intro st
    simp only [rateStep]
    split_ifs with hsame
    · rfl
    · rfl

/-- Witness for C5: five consecutive calls to `/event/N/contacts` shapes do
not trip the guard on the fifth call, the sixth consecutive call (with yet
another id) trips it, and an interleaved call to a different shape resets
the run so the guard does not trip. -/
theorem checkRateLimit_spec_witness :
    tripsOn ["/event/1/contacts", "/event/2/contacts", "/event/3/contacts",
      "/event/4/contacts", "/event/5/contacts"] "/event/6/contacts" = true ∧
    tripsOn ["/event/1/contacts", "/event/2/contacts", "/event/3/contacts",
      "/event/4/contacts"] "/event/5/contacts" = false ∧
    tripsOn ["/event/1/contacts", "/event/2/contacts", "/event/3/contacts",
      "/event/4/contacts", "/event/5/contacts", "/event/9/resources"]
      "/event/6/contacts" = false := by
  refine ⟨?_, ?_, ?_⟩
  · exact (checkRateLimit_spec ["/event/1/contacts", "/event/2/contacts", "/event/3/contacts",
      "/event/4/contacts", "/event/5/contacts"] "/event/6/contacts").1.mpr (by decide)
  · have h := (checkRateLimit_spec ["/event/1/contacts", "/event/2/contacts",
      "/event/3/contacts", "/event/4/contacts"] "/event/5/contacts").1
    exact Bool.eq_false_iff.mpr (fun htr => absurd (h.mp htr) (by decide))
  · have h := (checkRateLimit_spec ["/event/1/contacts", "/event/2/contacts",
      "/event/3/contacts", "/event/4/contacts", "/event/5/contacts",
      "/event/9/resources"] "/event/6/contacts").1
    exact Bool.eq_false_iff.mpr (fun htr => absurd (h.mp htr) (by decide))

/-! ### C9, C10: contact resolver and cache -/

/-- Looking up the key just set returns the value just set. -/
theorem mapLookup_mapSet {α : Type} (m : List (String × α)) (k : String) (v : α) :
    mapLookup (mapSet m k v) k = some v := by
  induction m with
  | nil => simp [mapSet, mapLookup]
  | cons hd tl ih =>
    obtain ⟨k0, v0⟩ := hd
    by_cases hk : k0 = k
    · simp [mapSet, mapLookup, hk]
    · simp [mapSet, mapLookup, hk, ih]

/-- C9 (amended).  On a cache hit, `findContactByName` returns immediately
with zero network requests and an unchanged cache; on a miss it issues
exactly one search request; when the search returns candidates and the
first exact name match is `c`, it returns the id of `c`, caches it, and a
second call for the same name then issues zero requests. -/
theorem findContactByName_spec (cache : List (String × String))
    (lookup : String → SearchOutcome) (name : String) :
    (∀ v, mapLookup cache name = some v →
      findContactByName cache lookup name =
        ⟨.ok (if v = "" then none else some v), cache, 0⟩) ∧
    (mapLookup cache name = none → (findContactByName cache lookup name).requests = 1) ∧
    (∀ contacts c, mapLookup cache name = none → lookup name = .ok contacts →
      contacts.find? (fun cand => decide (cand.name = JSVal.str name)) = some c →
      findContactByName cache lookup name =
        ⟨.ok (some (jsStrOrEmpty c.id)), mapSet cache name (jsStrOrEmpty c.id), 1⟩ ∧
      (findContactByName (findContactByName cache lookup name).cache lookup name).requests
        = 0) := by
  refine ⟨?_, ?_, ?_⟩
  · intro v hv
    simp [findContactByName, hv]
  · intro hmiss
    simp only [findContactByName, hmiss]
    rcases lookup name with contacts | _ | _
    · rcases hfind : contacts.find? (fun cand => decide (cand.name = JSVal.str name)) with _ | c <;>
        simp [hfind]
    · rfl
    · rfl
  · intro contacts c hmiss hok hfind
    have hfirst : findContactByName cache lookup name =
        ⟨.ok (some (jsStrOrEmpty c.id)), mapSet cache name (jsStrOrEmpty c.id), 1⟩ := by
      simp [findContactByName, hmiss, hok, hfind]
    refine ⟨hfirst, ?_⟩
    rw [hfirst]
    simp [findContactByName, mapLookup_mapSet]

/-- A search environment whose single candidate is an exact match for
`Impro Neuf`. -/
def lookupExact : String → SearchOutcome :=
  fun _ => .ok [⟨.str "cid-9", .str "Impro Neuf"⟩]

/-- Witness for C9 (amended): with a successful exact match, the first call
issues one request and the second call issues zero. -/
theorem findContactByName_spec_witness :
    (findContactByName [] lookupExact "Impro Neuf").requests = 1 ∧
    (findContactByName (findContactByName [] lookupExact "Impro Neuf").cache
      lookupExact "Impro Neuf").requests = 0 :=
  ⟨((findContactByName_spec [] lookupExact "Impro Neuf").2.2
      [⟨.str "cid-9", .str "Impro Neuf"⟩] ⟨.str "cid-9", .str "Impro Neuf"⟩
      rfl rfl (by decide)).1 ▸ rfl,
   ((findContactByName_spec [] lookupExact "Impro Neuf").2.2
      [⟨.str "cid-9", .str "Impro Neuf"⟩] ⟨.str "cid-9", .str "Impro Neuf"⟩
      rfl rfl (by decide)).2⟩

/-- A search environment whose candidates never match `Impro Neuf`
exactly. -/
def lookupNoMatch : String → SearchOutcome :=
  fun _ => .ok [⟨.str "cid-1", .str "Someone Else"⟩]

/-- Counterexample to C9 as stated: when the first call finds no exact
match, nothing is cached, so the second call with the same name issues one
network request, not zero. -/
theorem findContactByName_second_call_counterexample :
    (findContactByName [] lookupNoMatch "Impro Neuf").requests = 1 ∧
    (findContactByName (findContactByName [] lookupNoMatch "Impro Neuf").cache
      lookupNoMatch "Impro Neuf").requests = 1 := by
  constructor <;> rfl

/-- C10.  A lookup that resolves to `null` — an upstream not-found, or a
response with no exact name match — leaves the cache unchanged, so a
subsequent call with the same name issues another network request instead
of returning from cache. -/
theorem findContactByName_null_not_cached (cache : List (String × String))
    (lookup : String → SearchOutcome) (name : String)
    (hmiss : mapLookup cache name = none)
    (hnull : lookup name = .notFound ∨
      ∃ contacts, lookup name = .ok contacts ∧
        contacts.find? (fun cand => decide (cand.name = JSVal.str name)) = none) :
    (findContactByName cache lookup name).result = .ok none ∧
    (findContactByName cache lookup name).cache = cache ∧
    (findContactByName (findContactByName cache lookup name).cache lookup name).requests
      = 1 := by
  have hcall : findContactByName cache lookup name = ⟨.ok none, cache, 1⟩ := by
    rcases hnull with h | ⟨contacts, hok, hfind⟩
    · simp [findContactByName, hmiss, h]
    · simp [findContactByName, hmiss, hok, hfind]
  refine ⟨by rw [hcall], by rw [hcall], ?_⟩
  rw [hcall]
  exact (findContactByName_spec cache lookup name).2.1 hmiss

/-- A search environment in which the upstream answers not-found. -/
def lookupNotFound : String → SearchOutcome := fun _ => .notFound

/-- Witness for C10: a not-found lookup returns `null`, caches nothing,
and the repeated call issues another request. -/
theorem findContactByName_null_not_cached_witness :
    (findContactByName [] lookupNotFound "Impro Neuf").result = .ok none ∧
    (findContactByName [] lookupNotFound "Impro Neuf").cache = [] ∧
    (findContactByName (findContactByName [] lookupNotFound "Impro Neuf").cache
      lookupNotFound "Impro Neuf").requests = 1 :=
  findContactByName_null_not_cached [] lookupNotFound "Impro Neuf" rfl (Or.inl rfl)

/-! ### C7, C8: booker filter and its caller -/

/-- C7.  With the sentinel `Other`, `filter_events_by_booker` keeps exactly
the events whose candidate name set contains none of the relevant-bookers
allow-list; with any other non-empty selected booker it keeps exactly the
events whose candidate name set contains the selected booker as an exact
string. -/
theorem filter_events_by_booker_spec (events : List YesPlanEvent)
    (cmap : List (String × List YesPlanContact)) (selected : String) (e : YesPlanEvent)
    (h1 : selected ≠ "") (h2 : selected ≠ "Other") :
    (e ∈ filter_events_by_booker events "Other" cmap ↔
      e ∈ events ∧ ∀ n ∈ candidateNames e cmap, n ∉ relevant_bookers) ∧
    (e ∈ filter_events_by_booker events selected cmap ↔
      e ∈ events ∧ selected ∈ candidateNames e cmap) := by
  constructor
  · have hform : filter_events_by_booker events "Other" cmap =
        events.filter (fun ev =>
          ! (candidateNames ev cmap).any (fun n => relevant_bookers.contains n)) := by
      simp [filter_events_by_booker]
    rw [hform]
    simp [List.mem_filter, List.any_eq_true]
  · have hform : filter_events_by_booker events selected cmap =
        events.filter (fun ev => (candidateNames ev cmap).contains selected) := by
      simp [filter_events_by_booker, h1, h2]
    rw [hform]
    simp [List.mem_filter]

/-- An event owned by `Impro Neuf` (in the allow-list). -/
def eventImproNeuf : YesPlanEvent :=
  ⟨"e1", "Event 1", some 0, some 3600000, "", none, .objWithName "Impro Neuf"⟩

/-- An event owned by `Random Co` (not in the allow-list). -/
def eventRandomCo : YesPlanEvent :=
  ⟨"e2", "Event 2", some 0, some 3600000, "", none, .objWithName "Random Co"⟩

/-- Witness for C7: under `Other`, the `Impro Neuf`-owned event is excluded
and the `Random Co`-owned event is included; selecting `Impro Neuf` keeps
exactly the `Impro Neuf`-owned event. -/
theorem filter_events_by_booker_spec_witness :
    eventRandomCo ∈ filter_events_by_booker [eventImproNeuf, eventRandomCo] "Other" [] ∧
    eventImproNeuf ∉ filter_events_by_booker [eventImproNeuf, eventRandomCo] "Other" [] ∧
    eventImproNeuf ∈
      filter_events_by_booker [eventImproNeuf, eventRandomCo] "Impro Neuf" [] := by
  refine ⟨?_, ?_, ?_⟩
  · exact (filter_events_by_booker_spec [eventImproNeuf, eventRandomCo] [] "Impro Neuf"
      eventRandomCo (by decide) (by decide)).1.mpr ⟨by decide, by decide⟩
  · intro hmem
    have h := (filter_events_by_booker_spec [eventImproNeuf, eventRandomCo] [] "Impro Neuf"
      eventImproNeuf (by decide) (by decide)).1.mp hmem
    exact absurd (h.2 "Impro Neuf" (by decide)) (by decide)
  · exact (filter_events_by_booker_spec [eventImproNeuf, eventRandomCo] [] "Impro Neuf"
      eventImproNeuf (by decide) (by decide)).2.mpr ⟨by decide, by decide⟩

/-- The first mock event of the repository test suite (no `owner`, no
contacts). -/
def mockEvent1 : YesPlanEvent :=
  ⟨"event-1", "Event 1", some 1705312800000, some 1705320000000, "confirmed", none, .undef⟩

/-- The second mock event of the repository test suite. -/
def mockEvent2 : YesPlanEvent :=
  ⟨"event-2", "Event 2", some 1705399200000, some 1705406400000, "confirmed", none, .undef⟩

/-- The third mock event of the repository test suite. -/
def mockEvent3 : YesPlanEvent :=
  ⟨"event-3", "Event 3", some 1705485600000, some 1705492800000, "confirmed", none, .undef⟩

/-- C8 (evaluating the code at the failing input of its own test suite).
With a non-empty event list, an empty contacts map, and the default
selected booker `Impro Neuf`, the `filtered_events` computed property of
`App.vue` does NOT bypass filtering: it filters via the (empty) contact
and owner candidates and returns the empty list, while the repository
tests (`App.test.ts`, filtered_events with empty contact map) assert that
all three events are returned unchanged. -/
theorem filtered_events_no_bypass :
    filtered_events [mockEvent1, mockEvent2, mockEvent3] "Impro Neuf" [] = [] ∧
      ([mockEvent1, mockEvent2, mockEvent3] : List YesPlanEvent) ≠ [] := by
  exact ⟨by decide, by decide⟩

/-! ### C4: the paginated fetch engine -/

/-- Zero pages join to the empty list. -/
theorem joinPages_zero (responses : Nat → PageResponse) (parse : String → Option Int)
    (now : Int) (k : Nat) : joinPages responses parse now k 0 = [] := by
  simp [joinPages]

/-- One page joins to that page. -/
theorem joinPages_one (responses : Nat → PageResponse) (parse : String → Option Int)
    (now : Int) (k : Nat) : joinPages responses parse now k 1 = pageEvents responses parse now k := by
  simp [joinPages, List.range_succ]

/-- Splitting off the first page of a join. -/
theorem joinPages_succ (responses : Nat → PageResponse) (parse : String → Option Int)
    (now : Int) (k m : Nat) :
    joinPages responses parse now k (m + 1) =
      pageEvents responses parse now k ++ joinPages responses parse now (k + 1) m := by
  simp only [joinPages, List.range_succ_eq_map, List.map_cons, List.map_map, List.flatten_cons,
    Nat.add_zero]
  congr 1
  congr 1
  apply List.map_congr_left
  intro i _
  simp only [Function.comp_apply]
  congr 1
  omega

/-- When the guard trips, the iteration throws before its network request:
the loop ends with `Except.error`, the request count unchanged, and the
guard counter already incremented. -/
theorem fetchGo_step_trip (responses : Nat → PageResponse)
    (parseNext : String → Option (Option Int × Option Int))
    (parse : String → Option Int) (now : Int) (endpoint : String)
    (fuel k : Nat) (st : RateState) (book : Option Int) (page : Int)
    (acc : List YesPlanEvent) (h : (rateStep st endpoint).2 = true) :
    fetchGo responses parseNext parse now endpoint (fuel + 1) k st book page acc =
      (.error (), k, (rateStep st endpoint).1) := by
  simp [fetchGo, h]

/-- When the guard passes and the continuation decision of the fetched page
is false, the loop returns the accumulator extended by that page. -/
theorem fetchGo_step_stop (responses : Nat → PageResponse)
    (parseNext : String → Option (Option Int × Option Int))
    (parse : String → Option Int) (now : Int) (endpoint : String)
    (fuel k : Nat) (st : RateState) (book : Option Int) (page : Int)
    (acc : List YesPlanEvent) (h : (rateStep st endpoint).2 = false)
    (hc : contDecision (responses k) = false) :
    fetchGo responses parseNext parse now endpoint (fuel + 1) k st book page acc =
      (.ok (acc ++ pageEvents responses parse now k), k + 1, (rateStep st endpoint).1) := by
  rcases hpag : (responses k).pagination with _ | p
  · simp [fetchGo, h, hpag, pageEvents]
  · rcases hnext : p.next with _ | nxt
    · rcases hm : p.hasMore with _ | b
      · simp [fetchGo, h, hpag, hnext, hm, pageEvents]
      · have hb : b = false := by
          simpa [contDecision, hpag, hnext, hm] using hc
        subst hb
        simp [fetchGo, h, hpag, hnext, hm, pageEvents]
    · exfalso
      simp [contDecision, hpag, hnext] at hc

/-- When the guard passes and the continuation decision is true, the loop
recurses with the fetched page accumulated, one more request issued, and
the stepped guard state (for some book/page cursor). -/
theorem fetchGo_step_cont (responses : Nat → PageResponse)
    (parseNext : String → Option (Option Int × Option Int))
    (parse : String → Option Int) (now : Int) (endpoint : String)
    (fuel k : Nat) (st : RateState) (book : Option Int) (page : Int)
    (acc : List YesPlanEvent) (h : (rateStep st endpoint).2 = false)
    (hc : contDecision (responses k) = true) :
    ∃ b2 p2, fetchGo responses parseNext parse now endpoint (fuel + 1) k st book page acc =
      fetchGo responses parseNext parse now endpoint fuel (k + 1) (rateStep st endpoint).1
        b2 p2 (acc ++ pageEvents responses parse now k) := by
  rcases hpag : (responses k).pagination with _ | p
  · exfalso
    simp [contDecision, hpag] at hc
  · rcases hnext : p.next with _ | nxt
    · rcases hm : p.hasMore with _ | b
      · exfalso
        simp [contDecision, hpag, hnext, hm] at hc
      · have hb : b = true := by
          simpa [contDecision, hpag, hnext, hm] using hc
        subst hb
        exact ⟨(match p.book with | some b => some b | none => book), page + 1, by
          simp [fetchGo, h, hpag, hnext, hm, pageEvents]⟩
    · rcases hpn : parseNext nxt with _ | ⟨nb, np⟩
      · exact ⟨book, page + 1, by simp [fetchGo, h, hpag, hnext, hpn, pageEvents]⟩
      · rcases nb with _ | bv <;> rcases np with _ | pv
        · exact ⟨book, page, by simp [fetchGo, h, hpag, hnext, hpn, pageEvents]⟩
        · exact ⟨book, pv, by simp [fetchGo, h, hpag, hnext, hpn, pageEvents]⟩
        · exact ⟨some bv, page, by simp [fetchGo, h, hpag, hnext, hpn, pageEvents]⟩
        · exact ⟨some bv, pv, by simp [fetchGo, h, hpag, hnext, hpn, pageEvents]⟩

/-- Invariant of the page loop: starting at request index `k` with `fuel`
pages of budget, the loop issues between `0` and `fuel` further network
requests; when it returns normally, the result is the accumulator extended
by exactly the pages it fetched, it stopped early only on a false
continuation decision, and it continued only on true ones. -/
theorem fetchGo_spec (responses : Nat → PageResponse)
    (parseNext : String → Option (Option Int × Option Int))
    (parse : String → Option Int) (now : Int) (endpoint : String) :
    ∀ (fuel k : Nat) (st : RateState) (book : Option Int) (page : Int)
      (acc : List YesPlanEvent),
      k ≤ (fetchGo responses parseNext parse now endpoint fuel k st book page acc).2.1 ∧
      (fetchGo responses parseNext parse now endpoint fuel k st book page acc).2.1
        ≤ k + fuel ∧
      (∀ evs, (fetchGo responses parseNext parse now endpoint fuel k st book page acc).1
          = .ok evs →
        evs = acc ++ joinPages responses parse now k
          ((fetchGo responses parseNext parse now endpoint fuel k st book page acc).2.1 - k)) ∧
      (∀ evs, (fetchGo responses parseNext parse now endpoint fuel k st book page acc).1
          = .ok evs →
        (fetchGo responses parseNext parse now endpoint fuel k st book page acc).2.1
          < k + fuel →
        k < (fetchGo responses parseNext parse now endpoint fuel k st book page acc).2.1 ∧
        contDecision (responses
          ((fetchGo responses parseNext parse now endpoint fuel k st book page acc).2.1 - 1))
          = false) ∧
      (∀ i, k ≤ i →
        i + 1 < (fetchGo responses parseNext parse now endpoint fuel k st book page acc).2.1 →
        contDecision (responses i) = true) := by
  intro fuel
  induction fuel with
  | zero =>
    intro k st book page acc
    refine ⟨Nat.le_refl _, by simp [fetchGo], ?_, by simp [fetchGo], ?_⟩
    · intro evs hevs
      simp only [fetchGo, Except.ok.injEq] at hevs
      simp [fetchGo, joinPages, ← hevs]
    · intro i h1 h2
      simp [fetchGo] at h2
      omega
  | succ fuel ih =>
    intro k st book page acc
    by_cases htrip : (rateStep st endpoint).2 = true
    · rw [fetchGo_step_trip responses parseNext parse now endpoint fuel k st book page acc htrip]
      refine ⟨Nat.le_refl _, ?_, by simp, by simp, ?_⟩
      · show k ≤ k + (fuel + 1)
        omega
      · intro i h1 h2
        replace h2 : i + 1 < k := h2
        omega
    · replace htrip : (rateStep st endpoint).2 = false := by
        simpa using htrip
      by_cases hcont : contDecision (responses k) = true
      · obtain ⟨b2, p2, heq⟩ :=
          fetchGo_step_cont responses parseNext parse now endpoint fuel k st book page acc
            htrip hcont
        rw [heq]
        obtain ⟨i1, i2, i3, i4, i5⟩ :=
          ih (k + 1) (rateStep st endpoint).1 b2 p2 (acc ++ pageEvents responses parse now k)
        refine ⟨by omega, by omega, ?_, ?_, ?_⟩
        · intro evs hevs
          rw [i3 evs hevs, List.append_assoc]
          congr 1
          have hm2 : (fetchGo responses parseNext parse now endpoint fuel (k + 1)
              (rateStep st endpoint).1 b2 p2
              (acc ++ pageEvents responses parse now k)).2.1 - k =
              ((fetchGo responses parseNext parse now endpoint fuel (k + 1)
                (rateStep st endpoint).1 b2 p2
                (acc ++ pageEvents responses parse now k)).2.1 - (k + 1)) + 1 := by omega
          rw [hm2, joinPages_succ]
        · intro evs hevs hlt
          have h4 := i4 evs hevs (by omega)
          exact ⟨by omega, h4.2⟩
        · intro i hki hi
          rcases Nat.eq_or_lt_of_le hki with rfl | hki2
          · exact hcont
          · exact i5 i (by omega) hi
      · replace hcont : contDecision (responses k) = false := by
          simpa using hcont
        rw [fetchGo_step_stop responses parseNext parse now endpoint fuel k st book page acc
          htrip hcont]
        refine ⟨?_, ?_, ?_, ?_, ?_⟩
        · show k ≤ k + 1
          omega
        · show k + 1 ≤ k + (fuel + 1)
          omega
        · intro evs hevs
          replace hevs : Except.ok (acc ++ pageEvents responses parse now k) = Except.ok evs :=
            hevs
          simp only [Except.ok.injEq] at hevs
          show evs = acc ++ joinPages responses parse now k (k + 1 - k)
          have h1 : k + 1 - k = 1 := by omega
          rw [h1, joinPages_one]
          exact hevs.symm
        · intro evs _ _
          show k < k + 1 ∧ contDecision (responses (k + 1 - 1)) = false
          have h1 : k + 1 - 1 = k := by omega
          rw [h1]
          exact ⟨by omega, hcont⟩
        · intro i h1 h2
          replace h2 : i + 1 < k + 1 := h2
          omega

/-- Dynamics of the guard along the page loop, once its `last_endpoint` is
the loop endpoint with counter `c ≤ 5`: the loop throws the rate-limit
error iff the budget and the continuation decisions allow `5 - c` more
pages to be fetched and a further iteration to start; in that case exactly
`5 - c` further network requests were issued. -/
theorem fetchGo_trip_spec (responses : Nat → PageResponse)
    (parseNext : String → Option (Option Int × Option Int))
    (parse : String → Option Int) (now : Int) (endpoint : String) :
    ∀ (fuel k c : Nat) (book : Option Int) (page : Int) (acc : List YesPlanEvent),
      c ≤ 5 →
      (((fetchGo responses parseNext parse now endpoint fuel k
          ⟨some (extractEndpointPath endpoint), c⟩ book page acc).1 = .error ()) ↔
        (5 - c) + 1 ≤ fuel ∧
          ∀ i, k ≤ i → i < k + (5 - c) → contDecision (responses i) = true) ∧
      ((fetchGo responses parseNext parse now endpoint fuel k
          ⟨some (extractEndpointPath endpoint), c⟩ book page acc).1 = .error () →
        (fetchGo responses parseNext parse now endpoint fuel k
          ⟨some (extractEndpointPath endpoint), c⟩ book page acc).2.1 = k + (5 - c)) := by
  intro fuel
  induction fuel with
  | zero =>
    intro k c book page acc hc5
    constructor
    · constructor
      · intro h
        simp [fetchGo] at h
      · rintro ⟨h1, _⟩
        omega
    · intro h
      simp [fetchGo] at h
  | succ fuel ih =>
    intro k c book page acc hc5
    by_cases hc : c = 5
    · subst hc
      have htrip : (rateStep ⟨some (extractEndpointPath endpoint), 5⟩ endpoint).2 = true := by
        simp [rateStep, RATE_LIMIT]
      rw [fetchGo_step_trip responses parseNext parse now endpoint fuel k _ book page acc htrip]
      refine ⟨⟨fun _ => ⟨by omega, fun i h1 h2 => absurd h2 (by omega)⟩, fun _ => rfl⟩, ?_⟩
      intro _
      show k = k + (5 - 5)
      omega
    · have hclt : c < 5 := by omega
      have htrip : (rateStep ⟨some (extractEndpointPath endpoint), c⟩ endpoint).2 = false := by
        simp only [rateStep, if_pos rfl]
        simp [RATE_LIMIT]
        omega
      have hst1 : (rateStep ⟨some (extractEndpointPath endpoint), c⟩ endpoint).1 =
          ⟨some (extractEndpointPath endpoint), c + 1⟩ := by
        simp [rateStep]
      by_cases hcont : contDecision (responses k) = true
      · obtain ⟨b2, p2, heq⟩ :=
          fetchGo_step_cont responses parseNext parse now endpoint fuel k _ book page acc
            htrip hcont
        rw [heq, hst1]
        obtain ⟨ihiff, ihk⟩ :=
          ih (k + 1) (c + 1) b2 p2 (acc ++ pageEvents responses parse now k) (by omega)
        constructor
        · constructor
          · intro herr
            obtain ⟨h1, h2⟩ := ihiff.mp herr
            refine ⟨by omega, ?_⟩
            intro i hki hilt
            rcases Nat.eq_or_lt_of_le hki with rfl | hki2
            · exact hcont
            · exact h2 i (by omega) (by omega)
          · rintro ⟨h1, h2⟩
            apply ihiff.mpr
            exact ⟨by omega, fun i hi1 hi2 => h2 i (by omega) (by omega)⟩
        · intro herr
          rw [ihk herr]
          omega
      · replace hcont : contDecision (responses k) = false := by
          simpa using hcont
        rw [fetchGo_step_stop responses parseNext parse now endpoint fuel k _ book page acc
          htrip hcont]
        constructor
        · constructor
          · intro h
            simp at h
          · rintro ⟨_, hall⟩
            have := hall k (le_refl _) (by omega)
            rw [this] at hcont
            exact absurd hcont (by simp)
        · intro h
          simp at h

/-- C4 (amended).  For every sequence of page responses, `fetchEvents`
terminates and issues at most `maxPages` network page requests.  On every
iteration, `request` first runs `checkRateLimit` on the loop's single
endpoint (the date filter lives in the path, `book`/`page` only in query
parameters the guard strips), so the guard sees the same normalized shape
each time.  When no trip occurs, the loop stops as soon as the continuation
decision is false or `maxPages` pages have been fetched, and the
accumulated normalized events are returned; every page fetched before the
last had a true continuation decision.  Starting from a fresh guard state,
however, the call throws the rate-limit error — returning no events — iff
`maxPages ≥ 6` and the first five pages all decide to continue, in which
case exactly five network requests were issued; so the `maxPages = 10`
default can never be reached from a fresh service. -/
theorem fetchEvents_spec (responses : Nat → PageResponse)
    (parseNext : String → Option (Option Int × Option Int))
    (parse : String → Option Int) (now : Int) (endpoint : String)
    (st0 : RateState) (maxPages : Nat) :
    (fetchEvents responses parseNext parse now endpoint st0 maxPages).2.1 ≤ maxPages ∧
    (∀ evs, (fetchEvents responses parseNext parse now endpoint st0 maxPages).1 = .ok evs →
      evs = joinPages responses parse now 0
        (fetchEvents responses parseNext parse now endpoint st0 maxPages).2.1) ∧
    (∀ evs, (fetchEvents responses parseNext parse now endpoint st0 maxPages).1 = .ok evs →
      (fetchEvents responses parseNext parse now endpoint st0 maxPages).2.1 < maxPages →
      0 < (fetchEvents responses parseNext parse now endpoint st0 maxPages).2.1 ∧
      contDecision (responses
        ((fetchEvents responses parseNext parse now endpoint st0 maxPages).2.1 - 1))
        = false) ∧
    (∀ i, i + 1 < (fetchEvents responses parseNext parse now endpoint st0 maxPages).2.1 →
      contDecision (responses i) = true) ∧
    ((fetchEvents responses parseNext parse now endpoint ⟨none, 0⟩ maxPages).1 = .error () ↔
      6 ≤ maxPages ∧ ∀ i, i < 5 → contDecision (responses i) = true) ∧
    ((fetchEvents responses parseNext parse now endpoint ⟨none, 0⟩ maxPages).1 = .error () →
      (fetchEvents responses parseNext parse now endpoint ⟨none, 0⟩ maxPages).2.1 = 5) := by
  obtain ⟨h1, h2, h3, h4, h5⟩ :=
    fetchGo_spec responses parseNext parse now endpoint maxPages 0 st0 none 1 []
  have fresh : ((fetchEvents responses parseNext parse now endpoint ⟨none, 0⟩ maxPages).1
        = .error () ↔
      6 ≤ maxPages ∧ ∀ i, i < 5 → contDecision (responses i) = true) ∧
      ((fetchEvents responses parseNext parse now endpoint ⟨none, 0⟩ maxPages).1 = .error () →
        (fetchEvents responses parseNext parse now endpoint ⟨none, 0⟩ maxPages).2.1 = 5) := by
    rcases maxPages with _ | fuel
    · constructor
      · constructor
        · intro h
          simp [fetchEvents, fetchGo] at h
        · rintro ⟨h6, _⟩
          omega
      · intro h
        simp [fetchEvents, fetchGo] at h
    · have htrip0 : (rateStep (⟨none, 0⟩ : RateState) endpoint).2 = false := by
        simp [rateStep]
      have hst0 : (rateStep (⟨none, 0⟩ : RateState) endpoint).1 =
          ⟨some (extractEndpointPath endpoint), 1⟩ := by
        simp [rateStep]
      by_cases hcont0 : contDecision (responses 0) = true
      · obtain ⟨b2, p2, heq⟩ :=
          fetchGo_step_cont responses parseNext parse now endpoint fuel 0 ⟨none, 0⟩ none 1 []
            htrip0 hcont0
        obtain ⟨ihiff, ihk⟩ :=
          fetchGo_trip_spec responses parseNext parse now endpoint fuel 1 1 b2 p2
            ([] ++ pageEvents responses parse now 0) (by omega)
        unfold fetchEvents
        rw [heq, hst0]
        constructor
        · constructor
          · intro herr
            obtain ⟨h6, h7⟩ := ihiff.mp herr
            refine ⟨by omega, ?_⟩
            intro i hi5
            rcases Nat.eq_zero_or_pos i with rfl | hipos
            · exact hcont0
            · exact h7 i (by omega) (by omega)
          · rintro ⟨h6, h7⟩
            apply ihiff.mpr
            exact ⟨by omega, fun i hi1 hi2 => h7 i (by omega)⟩
        · intro herr
          rw [ihk herr]
      · replace hcont0 : contDecision (responses 0) = false := by
          simpa using hcont0
        unfold fetchEvents
        rw [fetchGo_step_stop responses parseNext parse now endpoint fuel 0 ⟨none, 0⟩ none 1 []
          htrip0 hcont0]
        constructor
        · constructor
          · intro h
            simp at h
          · rintro ⟨_, hall⟩
            have := hall 0 (by omega)
            rw [this] at hcont0
            exact absurd hcont0 (by simp)
        · intro h
          simp at h
  refine ⟨by simpa using h2, ?_, ?_, ?_, fresh.1, fresh.2⟩
  · intro evs hevs
    simpa [fetchEvents] using h3 evs hevs
  · intro evs hevs hlt
    have := h4 evs hevs (by simpa using hlt)
    exact ⟨this.1, this.2⟩
  · intro i hi
    exact h5 i (Nat.zero_le _) hi

/-- A response environment that always reports more pages. -/
def morePagesResponses : Nat → PageResponse :=
  fun _ => ⟨[], some ⟨some 1, some 1, some true, none⟩⟩

/-- A response environment whose first page reports completion. -/
def lastPageResponses : Nat → PageResponse :=
  fun _ => ⟨[], some ⟨some 1, some 1, some false, none⟩⟩

/-- A `new URL` environment in which parsing always throws. -/
def noParseNext : String → Option (Option Int × Option Int) := fun _ => none

/-- Counterexample to C4 as stated: against a server that always reports
more pages, `fetchEvents` with the default cap `maxPages = 10` on a fresh
service does NOT fetch 10 pages and return the accumulated events — the
internal rate guard trips at the start of the sixth page iteration, the
call throws, only 5 network requests were issued, and no events are
returned. -/
theorem fetchEvents_rate_trip_counterexample :
    (fetchEvents morePagesResponses noParseNext parseNone 0 "/events" ⟨none, 0⟩ 10).1
      = .error () ∧
    (fetchEvents morePagesResponses noParseNext parseNone 0 "/events" ⟨none, 0⟩ 10).2.1
      = 5 := by
  constructor <;> rfl

/-- Witness for C4 (amended): a first page reporting completion stops the
loop after one request with a false continuation decision; with the cap
below the guard threshold (`maxPages = 3`) an always-more server is cut off
at the cap and the accumulated (empty) pages are returned; and at the
failing input of the counterexample the theorem pins the request count
to 5. -/
theorem fetchEvents_spec_witness :
    contDecision (lastPageResponses 0) = false ∧
    ([] : List YesPlanEvent) =
      joinPages morePagesResponses parseNone 0 0
        (fetchEvents morePagesResponses noParseNext parseNone 0 "/events" ⟨none, 0⟩ 3).2.1 ∧
    (fetchEvents morePagesResponses noParseNext parseNone 0 "/events" ⟨none, 0⟩ 10).2.1
      = 5 := by
  refine ⟨?_, ?_, ?_⟩
  · exact ((fetchEvents_spec lastPageResponses noParseNext parseNone 0 "/events" ⟨none, 0⟩
      10).2.2.1 [] rfl (by decide)).2
  · exact (fetchEvents_spec morePagesResponses noParseNext parseNone 0 "/events" ⟨none, 0⟩
      3).2.1 [] rfl
  · exact (fetchEvents_spec morePagesResponses noParseNext parseNone 0 "/events" ⟨none, 0⟩
      10).2.2.2.2.2 rfl

/-! ### C6: the month overlap filter -/

/-- C6.  The month overlap filter keeps an event with valid dates iff its
start falls within `[monthStart, monthEnd]`, or its end falls within that
range, or it starts on or before `monthStart` and ends on or after
`monthEnd`, where `monthStart`/`monthEnd` are the first and last instants
of the reference month and both boundaries are inclusive. -/
theorem filterEventsForMonth_spec (events : List YesPlanEvent) (y m : Int)
    (e : YesPlanEvent) (s en : Int) (hs : e.start = some s) (he : e.end_ = some en) :
    e ∈ filterEventsForMonth events y m ↔
      e ∈ events ∧
        ((monthStartInstant y m ≤ s ∧ s ≤ monthEndInstant y m) ∨
         (monthStartInstant y m ≤ en ∧ en ≤ monthEndInstant y m) ∨
         (s ≤ monthStartInstant y m ∧ monthEndInstant y m ≤ en)) := by
  simp only [filterEventsForMonth, List.mem_filter, leOpt, hs, he, Bool.or_eq_true,
    Bool.and_eq_true, decide_eq_true_eq]
  tauto

/-- An event from Dec 25 to Feb 5 (spanning all of January). -/
def eventWinter : YesPlanEvent :=
  ⟨"w", "Winter", some (dayStartInstant (daysFromCivil 2023 12 25)),
    some (dayStartInstant (daysFromCivil 2024 2 5)), "", none, .undef⟩

/-- An event lying entirely in March. -/
def eventMarch : YesPlanEvent :=
  ⟨"mar", "March", some (dayStartInstant (daysFromCivil 2024 3 10)),
    some (dayStartInstant (daysFromCivil 2024 3 12)), "", none, .undef⟩

/-- Witness for C6: filtering for January 2024 keeps the Dec 25 to Feb 5
event and drops the March-only event. -/
theorem filterEventsForMonth_spec_witness :
    eventWinter ∈ filterEventsForMonth [eventWinter, eventMarch] 2024 1 ∧
      eventMarch ∉ filterEventsForMonth [eventWinter, eventMarch] 2024 1 := by
  constructor
  · exact (filterEventsForMonth_spec [eventWinter, eventMarch] 2024 1 eventWinter
      (dayStartInstant (daysFromCivil 2023 12 25)) (dayStartInstant (daysFromCivil 2024 2 5))
      rfl rfl).mpr ⟨by decide, Or.inr (Or.inr (by decide))⟩
  · intro hmem
    have h := (filterEventsForMonth_spec [eventWinter, eventMarch] 2024 1 eventMarch
      (dayStartInstant (daysFromCivil 2024 3 10)) (dayStartInstant (daysFromCivil 2024 3 12))
      rfl rfl).mp hmem
    exact absurd h.2 (by decide)

/-! ### C3: the calendar grid builder -/

/-- Floor characterization of the local day index. -/
theorem dayOf_eq_iff (t d : Int) :
    dayOf t = d ↔ d * msPerDay ≤ t ∧ t < (d + 1) * msPerDay := by
  have hL : (0 : Int) < msPerDay := by norm_num [msPerDay]
  rw [dayOf, Int.fdiv_eq_ediv _ (le_of_lt hL)]
  constructor
  · intro h
    have ha : d ≤ t / msPerDay := le_of_eq h.symm
    have hb : t / msPerDay < d + 1 := by omega
    exact ⟨(Int.le_ediv_iff_mul_le hL).mp ha, (Int.ediv_lt_iff_lt_mul hL).mp hb⟩
  · rintro ⟨h1, h2⟩
    have ha : d ≤ t / msPerDay := (Int.le_ediv_iff_mul_le hL).mpr h1
    have hb : t / msPerDay < d + 1 := (Int.ediv_lt_iff_lt_mul hL).mpr h2
    omega

/-- The day index is monotone in the instant. -/
theorem dayOf_mono {s t : Int} (h : s ≤ t) : dayOf s ≤ dayOf t := by
  have hL : (0 : Int) < msPerDay := by norm_num [msPerDay]
  rw [dayOf, dayOf, Int.fdiv_eq_ediv _ (le_of_lt hL), Int.fdiv_eq_ediv _ (le_of_lt hL)]
  exact Int.ediv_le_ediv hL h

/-- An event with valid, ordered dates is assigned to day `d` (starts on
it, ends on it, or spans its midnight) exactly when `d` lies between its
start day and its end day. -/
theorem eventOnDay_iff (e : YesPlanEvent) (s en d : Int) (hs : e.start = some s)
    (he : e.end_ = some en) (hord : s ≤ en) :
    eventOnDay e d = true ↔ dayOf s ≤ d ∧ d ≤ dayOf en := by
  have hsb := (dayOf_eq_iff s (dayOf s)).mp rfl
  have heb := (dayOf_eq_iff en (dayOf en)).mp rfl
  simp only [eventOnDay, hs, he, Bool.or_eq_true, Bool.and_eq_true, decide_eq_true_eq]
  constructor
  · rintro ((h | h) | ⟨h1, h2⟩)
    · subst h
      exact ⟨le_refl _, dayOf_mono hord⟩
    · subst h
      exact ⟨dayOf_mono hord, le_refl _⟩
    · simp only [dayStartInstant, msPerDay] at h1 h2
      simp only [msPerDay] at hsb heb
      constructor
      · omega
      · omega
  · rintro ⟨h1, h2⟩
    rcases eq_or_lt_of_le h1 with heq | hlt
    · exact Or.inl (Or.inl heq)
    · rcases eq_or_lt_of_le h2 with heq2 | hlt2
      · exact Or.inl (Or.inr heq2.symm)
      · refine Or.inr ⟨?_, ?_⟩ <;>
        · simp only [dayStartInstant, msPerDay] at *
          omega

/-- Elements of `dayRange start n` lie in `[start, start + n - 1]`. -/
theorem dayRange_bounds : ∀ (n : Nat) (start x : Int),
    x ∈ dayRange start n → start ≤ x ∧ x ≤ start + n - 1 := by
  intro n
  induction n with
  | zero => intro start x hx; simp [dayRange] at hx
  | succ n ih =>
    intro start x hx
    simp only [dayRange, List.mem_cons] at hx
    rcases hx with rfl | hx
    · constructor
      · exact le_refl _
      · push_cast
        omega
    · have := ih (start + 1) x hx
      push_cast at this ⊢
      omega

/-- Counting the elements of a consecutive run of days that fall in an
interval contained in the run. -/
theorem dayRange_filter_interval : ∀ (n : Nat) (a lo hi : Int),
    a ≤ lo → hi ≤ a + n - 1 → lo ≤ hi →
    ((dayRange a n).filter (fun d => decide (lo ≤ d ∧ d ≤ hi))).length
      = (hi - lo + 1).toNat := by
  intro n
  induction n with
  | zero =>
    intro a lo hi h1 h2 h3
    exfalso
    push_cast at h2
    omega
  | succ n ih =>
    intro a lo hi h1 h2 h3
    push_cast at h2
    simp only [dayRange, List.filter_cons]
    by_cases hk : lo ≤ a ∧ a ≤ hi
    · have hla : lo = a := le_antisymm hk.1 h1
      rw [if_pos (by simpa using hk)]
    
      by_cases hah : a < hi
      · have hcong : (dayRange (a + 1) n).filter (fun d => decide (lo ≤ d ∧ d ≤ hi)) =
            (dayRange (a + 1) n).filter (fun d => decide (a + 1 ≤ d ∧ d ≤ hi)) := by
          apply List.filter_congr
          intro x hx
          have := dayRange_bounds n (a + 1) x hx
          simp only [decide_eq_decide]
          omega
        rw [List.length_cons, hcong,
          ih (a + 1) (a + 1) hi (le_refl _) (by omega) (by omega)]
        omega
      · have hha : hi = a := by omega
        have hnil : (dayRange (a + 1) n).filter (fun d => decide (lo ≤ d ∧ d ≤ hi)) = [] := by
          rw [List.filter_eq_nil_iff]
          intro x hx
          have := dayRange_bounds n (a + 1) x hx
          simp only [decide_eq_true_eq]
          omega
        rw [List.length_cons, hnil]
        simp
        omega
    · have halo : a < lo := by
        rcases not_and_or.mp hk with h | h
        · omega
        · omega
      rw [if_neg (by simpa using hk)]
      exact ih (a + 1) lo hi (by omega) (by omega) h3

/-- C3 (amended).  In the calendar grid built for a reference month, a day
cell contains an event iff the event passed the month filter and starts on,
ends on, or spans that cell's day — and the cell holds the event value
itself, the same identity in every cell.  Consequently an event with valid
ordered dates spanning `N` consecutive days appears in exactly `N` day
cells whenever all `N` days fall within the grid and the event passes the
month filter; an event whose span crosses the grid boundary appears only in
the cells for its days inside the grid. -/
theorem calendar_days_assignment (events : List YesPlanEvent) (y m : Int) (e : YesPlanEvent) :
    (∀ c ∈ calendar_days events y m, ∀ x : YesPlanEvent,
      x ∈ c.events ↔ x ∈ filtered_by_month events y m ∧ eventOnDay x c.day = true) ∧
    (∀ s en : Int, e.start = some s → e.end_ = some en → s ≤ en →
      e ∈ filtered_by_month events y m →
      gridStartDay y m ≤ dayOf s → dayOf en ≤ gridEndDay y m →
      ((calendar_days events y m).filter (fun c => decide (e ∈ c.events))).length
        = (dayOf en - dayOf s + 1).toNat) := by
  constructor
  · intro c hc x
    simp only [calendar_days, List.mem_map] at hc
    obtain ⟨d, hd, rfl⟩ := hc
    simp [List.mem_filter]
  · intro s en hs he hord hmem hlo hhi
    simp only [calendar_days]
    rw [List.filter_map, List.length_map]
    have hcong : (gridDays y m).filter
        ((fun c => decide (e ∈ c.events)) ∘ (fun d =>
          (⟨d, (filtered_by_month events y m).filter (fun x => eventOnDay x d)⟩ :
            CalendarDayCell))) =
        (gridDays y m).filter (fun d => decide (dayOf s ≤ d ∧ d ≤ dayOf en)) := by
      apply List.filter_congr
      intro d _
      simp only [Function.comp_apply, decide_eq_decide, List.mem_filter]
      constructor
      · rintro ⟨_, h⟩
        exact (eventOnDay_iff e s en d hs he hord).mp h
      · intro h
        exact ⟨hmem, (eventOnDay_iff e s en d hs he hord).mpr h⟩
    rw [hcong]
    have hds := dayOf_mono hord
    have hcast : ((gridEndDay y m - gridStartDay y m + 1).toNat : Int) =
        gridEndDay y m - gridStartDay y m + 1 := Int.toNat_of_nonneg (by omega)
    unfold gridDays
    apply dayRange_filter_interval
    · exact hlo
    · omega
    · exact hds

/-- A 3-day event from Dec 30 2023 10:00 to Jan 1 2024 12:00: it crosses
the lower boundary of the January 2024 grid (which starts on Monday,
Jan 1 2024). -/
def boundaryEvent : YesPlanEvent :=
  ⟨"e-span", "Span", some (dayStartInstant (daysFromCivil 2023 12 30) + 36000000),
    some (dayStartInstant (daysFromCivil 2024 1 1) + 43200000), "", none, .undef⟩

/-- Counterexample to C3 as stated: this event spans 3 consecutive days and
passes the January month filter (it ends in January), yet it appears in
exactly 1 day cell of the January 2024 grid, because Dec 30 and Dec 31 2023
lie before the grid's first day. -/
theorem calendar_days_span_counterexample :
    dayOf (dayStartInstant (daysFromCivil 2024 1 1) + 43200000) -
        dayOf (dayStartInstant (daysFromCivil 2023 12 30) + 36000000) + 1 = 3 ∧
    boundaryEvent ∈ filtered_by_month [boundaryEvent] 2024 1 ∧
    ((calendar_days [boundaryEvent] 2024 1).filter
        (fun c => decide (boundaryEvent ∈ c.events))).length = 1 := by
  refine ⟨by decide, by decide, by decide⟩

/-- A 3-day event from Jan 10 2024 10:00 to Jan 12 2024 12:00, entirely
inside the January 2024 grid. -/
def insideEvent : YesPlanEvent :=
  ⟨"e-in", "Inside", some (dayStartInstant (daysFromCivil 2024 1 10) + 36000000),
    some (dayStartInstant (daysFromCivil 2024 1 12) + 43200000), "", none, .undef⟩

/-- Witness for C3 (amended): a 3-day event inside the month appears in
exactly 3 day cells of the grid. -/
theorem calendar_days_assignment_witness :
    ((calendar_days [insideEvent] 2024 1).filter
      (fun c => decide (insideEvent ∈ c.events))).length = 3 := by
  have h := (calendar_days_assignment [insideEvent] 2024 1 insideEvent).2
    (dayStartInstant (daysFromCivil 2024 1 10) + 36000000)
    (dayStartInstant (daysFromCivil 2024 1 12) + 43200000)
    rfl rfl (by decide) (by decide) (by decide) (by decide)
  rw [h]
  decide
